import Mathlib

/-!
Verification development for the litep2p notification `Peerset`
(`substrate/client/network/src/litep2p/shim/notification/peerset.rs`).

The Rust code is shallowly embedded as follows:
- `PeerId` (an opaque 32-byte identifier) is modelled as `Nat`;
- the `HashMap<PeerId, PeerState>` is modelled as an association list with
  unique keys (`lookupPeer` / `insertPeer`);
- the `HashSet<PeerId>` of reserved peers is modelled as a `List PeerId`;
- the shared `Arc<AtomicUsize>` connected-peer gauge is modelled as a `Nat`
  field (all its writes come from the `Peerset` task, so the atomicity is
  irrelevant to the properties below; the counter counts connected peers and
  cannot approach `usize::MAX`, so plain `Nat` arithmetic is faithful);
- functions that can `panic!` return `Option`, with `none` marking the panic;
  `debug_assert!(false)` paths are modelled with release-build semantics
  (the operation continues);
- the `FuturesUnordered` of pending back-off timers is modelled as a list of
  `(peer, reputation delta)` entries; timer durations are irrelevant to the
  claims and are dropped, the expiry of one entry is a separate step
  (`process_backoff_expiry`);
- the `Peerstore` is external to the file under verification: the slot
  allocator takes the answer of `next_outbound_peers` and the `is_peer_banned`
  predicate as parameters, constrained by the peerstore contract where a claim
  needs it.
-/

/-- Peer identifier (opaque 32-byte value in the source, modelled as `Nat`). -/

abbrev PeerId := Nat

/-- Is the peer reserved? (`Reserved` in the source). -/

inductive Reserved where
  | yes
  | no
  deriving DecidableEq, Repr

/-- Substream direction together with the reserved status the peer had when
the substream was initiated (`Direction` in the source). -/

inductive Direction where
  | inbound (r : Reserved)
  | outbound (r : Reserved)
  deriving DecidableEq, Repr

/-- Per-peer connection state (`PeerState` in the source). -/

inductive PeerState where
  | disconnected
  | backoff
  | opening (direction : Direction)
  | connected (direction : Direction)
  | canceled (direction : Direction)
  | closing (direction : Direction)
  deriving DecidableEq, Repr

/-- Result of validating an inbound substream (`ValidationResult` in the
source). -/

inductive ValidationResult where
  | accept
  | reject
  deriving DecidableEq, Repr

/-- The direction reported by the transport in `report_substream_opened`
(`traits::Direction` in the source; the function only logs it). -/

inductive TransportDirection where
  | inbound
  | outbound
  deriving DecidableEq, Repr

/-- Commands emitted by `Peerset` to the notification protocol
(`PeersetNotificationCommand` in the source). -/

inductive PeersetNotificationCommand where
  | openSubstream (peers : List PeerId)
  | closeSubstream (peers : List PeerId)
  deriving DecidableEq, Repr

/-- Commands emitted by other subsystems to `Peerset` (`PeersetCommand` in the
source; the `oneshot` reply channel of `GetReservedPeers` is dropped, the
reply itself is the `reserved_peers` field). -/

inductive PeersetCommand where
  | setReservedPeers (peers : List PeerId)
  | addReservedPeers (peers : List PeerId)
  | removeReservedPeers (peers : List PeerId)
  | setReservedOnly (reserved_only : Bool)
  | disconnectPeer (peer : PeerId)
  | getReservedPeers
  deriving DecidableEq, Repr

/-- Constant `DISCONNECT_ADJUSTMENT` in the source. -/

def DISCONNECT_ADJUSTMENT : Int := -256

/-- Constant `OPEN_FAILURE_ADJUSTMENT` in the source. -/

def OPEN_FAILURE_ADJUSTMENT : Int := -1024

/-- The `Peerset` state (the `Peerset` struct of the source, without the
channel, protocol-name and timer plumbing). -/

structure Peerset where
  max_out : Nat
  num_out : Nat
  max_in : Nat
  num_in : Nat
  reserved_only : Bool
  reserved_peers : List PeerId
  peers : List (PeerId × PeerState)
  connected_peers : Nat
  pending_backoffs : List (PeerId × Int)
  deriving DecidableEq, Repr

/-- Model of `HashMap::get`: first entry with the given key. -/

def lookupPeer : List (PeerId × PeerState) → PeerId → Option PeerState
  | [], _ => none
  | e :: rest, p => if e.1 = p then some e.2 else lookupPeer rest p

/-- Model of `HashMap::insert`: replace the first entry with the given key, or append. -/

def insertPeer : List (PeerId × PeerState) → PeerId → PeerState → List (PeerId × PeerState)
  | [], p, s => [(p, s)]
  | e :: rest, p, s => if e.1 = p then (p, s) :: rest else e :: insertPeer rest p s

/-- The direction a non-`Disconnected`/`Backoff` state carries (the four
directional `PeerState` variants). -/

def charged_dir : PeerState → Option Direction
  | .opening d => some d
  | .connected d => some d
  | .canceled d => some d
  | .closing d => some d
  | .disconnected => none
  | .backoff => none

/-- Does the state count towards `num_in`: it is Opening/Connected/Canceled/
Closing with direction `Inbound(No)` (spec section 8, invariant 1). -/

def counts_in_no (s : PeerState) : Bool :=
  decide (charged_dir s = some (.inbound .no))

/-- Does the state count towards `num_out`: it is Opening/Connected/Canceled/
Closing with direction `Outbound(No)`. -/

def counts_out_no (s : PeerState) : Bool :=
  decide (charged_dir s = some (.outbound .no))

/-- Number of entries whose state satisfies `f`. -/

def count_by (f : PeerState → Bool) : List (PeerId × PeerState) → Nat
  | [] => 0
  | e :: rest => (if f e.2 then 1 else 0) + count_by f rest

/-- The contribution of one (optional) state to a `count_by f` count. -/

def charge (f : PeerState → Bool) : Option PeerState → Nat
  | some s => if f s then 1 else 0
  | none => 0

/-- Spec section 8, invariant 1: `num_in` equals the number of peers in states
Opening/Connected/Canceled/Closing with direction `Inbound(No)`, and
symmetrically for `num_out` and `Outbound(No)`. -/

def counters_consistent (ps : Peerset) : Prop :=
  ps.num_in = count_by counts_in_no ps.peers ∧
    ps.num_out = count_by counts_out_no ps.peers

instance (ps : Peerset) : Decidable (counters_consistent ps) :=
  inferInstanceAs (Decidable (ps.num_in = count_by counts_in_no ps.peers ∧
    ps.num_out = count_by counts_out_no ps.peers))

/-- Spec section 8, invariant 2: the slot counters never exceed the budgets. -/

def within_bounds (ps : Peerset) : Prop :=
  ps.num_in ≤ ps.max_in ∧ ps.num_out ≤ ps.max_out

instance (ps : Peerset) : Decidable (within_bounds ps) :=
  inferInstanceAs (Decidable (ps.num_in ≤ ps.max_in ∧ ps.num_out ≤ ps.max_out))

/-- Embedding of `Peerset::report_substream_opened` (peerset.rs lines 398-436).
`none` models the `panic!` arm for a state other than Opening/Canceled; an
unknown peer logs a warning and returns `false` without touching the state
(release semantics of the `debug_assert!`). -/

def report_substream_opened (ps : Peerset) (peer : PeerId)
    (_direction : TransportDirection) : Option (Peerset × Bool) :=
  match lookupPeer ps.peers peer with
  | none => some (ps, false)
  | some (.opening d) =>
      some ({ ps with
                peers := insertPeer ps.peers peer (.connected d),
                connected_peers := ps.connected_peers + 1 }, true)
  | some (.canceled d) =>
      some ({ ps with
                peers := insertPeer ps.peers peer (.closing d),
                connected_peers := ps.connected_peers + 1 }, false)
  | some _ => none

/-- Embedding of `Peerset::report_substream_closed` (peerset.rs lines 447-502).
The `adjust_or_warn!` macro is a `checked_sub` that leaves the counter
untouched when it is already zero, which is exactly `Nat` subtraction.
An unknown peer returns early; every known peer is moved to `Backoff`, the
connected-peer gauge is decremented and a `DISCONNECT_ADJUSTMENT` back-off
entry is pushed (the `state =>` arm only logs before doing the same). -/

def report_substream_closed (ps : Peerset) (peer : PeerId) : Peerset :=
  match lookupPeer ps.peers peer with
  | none => ps
  | some st =>
      let ps1 : Peerset :=
        match st with
        | .connected (.inbound .no) => { ps with num_in := ps.num_in - 1 }
        | .closing (.inbound .no) => { ps with num_in := ps.num_in - 1 }
        | .connected (.outbound .no) => { ps with num_out := ps.num_out - 1 }
        | .closing (.outbound .no) => { ps with num_out := ps.num_out - 1 }
        | _ => ps
      { ps1 with
          peers := insertPeer ps1.peers peer .backoff,
          connected_peers := ps1.connected_peers - 1,
          pending_backoffs := ps1.pending_backoffs ++ [(peer, DISCONNECT_ADJUSTMENT)] }

/-- The tail of `Peerset::report_inbound_substream` (peerset.rs lines
600-620): reserved peers are accepted outright, non-reserved peers are
accepted while an inbound slot is free and rejected (and parked as
`Disconnected`) otherwise. -/

def inbound_slot_allocation (ps : Peerset) (peer : PeerId) (reserved_peer : Bool) :
    Peerset × ValidationResult :=
  if reserved_peer then
    ({ ps with peers := insertPeer ps.peers peer (.opening (.inbound .yes)) }, .accept)
  else if ps.num_in < ps.max_in then
    ({ ps with
         num_in := ps.num_in + 1,
         peers := insertPeer ps.peers peer (.opening (.inbound .no)) }, .accept)
  else
    ({ ps with peers := insertPeer ps.peers peer .disconnected }, .reject)

/-- Embedding of `Peerset::report_inbound_substream` (peerset.rs lines 505-620).
`none` models the two `panic!` sites: the reserved-flag mismatch for a peer in
`Opening{Outbound(..)}` (lines 534-541) and a `Canceled` state with an inbound
direction (lines 578-584). The `entry(peer).or_insert(Disconnected)` is
modelled by treating a missing entry as `Disconnected` and materialising the
entry on the branch taken. -/

def report_inbound_substream (ps : Peerset) (peer : PeerId) :
    Option (Peerset × ValidationResult) :=
  let reserved_peer : Bool := ps.reserved_peers.contains peer
  match lookupPeer ps.peers peer with
  | none =>
      some (inbound_slot_allocation
        { ps with peers := insertPeer ps.peers peer .disconnected } peer reserved_peer)
  | some .disconnected => some (inbound_slot_allocation ps peer reserved_peer)
  | some .backoff => some (ps, .reject)
  | some (.opening (.outbound rsv)) =>
      match reserved_peer, rsv with
      | true, .yes => some (inbound_slot_allocation ps peer reserved_peer)
      | false, .no =>
          let ps1 : Peerset := { ps with num_out := ps.num_out - 1 }
          if ps1.max_in ≤ ps1.num_in then
            some ({ ps1 with peers := insertPeer ps1.peers peer .disconnected }, .reject)
          else
            some (inbound_slot_allocation ps1 peer reserved_peer)
      | _, _ => none
  | some (.canceled (.outbound .yes)) =>
      some ({ ps with peers := insertPeer ps.peers peer .disconnected }, .reject)
  | some (.canceled (.outbound .no)) =>
      some ({ ps with
                num_out := ps.num_out - 1,
                peers := insertPeer ps.peers peer .disconnected }, .reject)
  | some (.canceled (.inbound _)) => none
  | some _ => some (ps, .reject)

/-- Embedding of `Peerset::report_substream_open_failure` (peerset.rs lines 623-683).
`none` models the `panic!` for a state other than Opening/Canceled. -/

def report_substream_open_failure (ps : Peerset) (peer : PeerId) : Option Peerset :=
  let adjusted : Option Peerset :=
    match lookupPeer ps.peers peer with
    | some (.opening (.outbound .no)) => some { ps with num_out := ps.num_out - 1 }
    | some (.opening (.inbound .no)) => some { ps with num_in := ps.num_in - 1 }
    | some (.canceled (.inbound .no)) => some { ps with num_in := ps.num_in - 1 }
    | some (.canceled (.outbound .no)) => some { ps with num_out := ps.num_out - 1 }
    | some (.canceled _) => some ps
    | some (.opening (.inbound .yes)) => some ps
    | some (.opening (.outbound .yes)) => some ps
    | _ => none
  match adjusted with
  | none => none
  | some ps1 =>
      some { ps1 with
               peers := insertPeer ps1.peers peer .backoff,
               pending_backoffs := ps1.pending_backoffs ++ [(peer, OPEN_FAILURE_ADJUSTMENT)] }

/-- Embedding of `Peerset::report_substream_rejected` (peerset.rs lines 686-730).
The Rust code removes the entry and re-inserts the updated (or, on the
diagnostic arm, the original) state; on the association-list model that is
`insertPeer` of the new state. An absent peer is a no-op. -/

def report_substream_rejected (ps : Peerset) (peer : PeerId) : Peerset :=
  match lookupPeer ps.peers peer with
  | some (.opening (.inbound .yes)) =>
      { ps with peers := insertPeer ps.peers peer .disconnected }
  | some (.opening (.outbound .yes)) =>
      { ps with peers := insertPeer ps.peers peer .disconnected }
  | some (.opening (.inbound .no)) =>
      { ps with
          num_in := ps.num_in - 1,
          peers := insertPeer ps.peers peer .disconnected }
  | some (.opening (.outbound .no)) =>
      { ps with
          num_out := ps.num_out - 1,
          peers := insertPeer ps.peers peer .disconnected }
  | none => ps
  | some _ => ps

/-- One expired back-off entry being drained in `poll_next` (peerset.rs lines
761-767): the peer is unconditionally inserted as `Disconnected` and the
reputation delta is reported to the peerstore (the second component of the
result is the `report_peer` call). -/

def process_backoff_expiry (ps : Peerset) (peer : PeerId) (reputation : Int) :
    Peerset × (PeerId × Int) :=
  ({ ps with
       peers := insertPeer ps.peers peer .disconnected,
       pending_backoffs := ps.pending_backoffs.erase (peer, reputation) },
   (peer, reputation))

/-- The per-state transition applied to every peer by `SetReservedOnly(true)`
(peerset.rs lines 1080-1090): Connected becomes Closing, Opening becomes
Canceled, everything else is untouched. -/

def close_or_cancel : PeerState → PeerState
  | .connected d => .closing d
  | .opening d => .canceled d
  | s => s

/-- Does the state match `PeerState::Connected { .. }`? -/

def is_connected_state : PeerState → Bool
  | .connected _ => true
  | _ => false

/-- The `filter_map` loop of `PeersetCommand::AddReservedPeers` (peerset.rs
lines 907-933): peers already reserved are skipped; new reserved peers that
are absent or `Disconnected` become `Opening{Outbound(Yes)}` and are collected
into the emitted batch; new reserved peers in any other state keep it. -/

def add_reserved_peers_loop (ps : Peerset) : List PeerId → Peerset × List PeerId
  | [] => (ps, [])
  | peer :: rest =>
      if peer ∈ ps.reserved_peers then add_reserved_peers_loop ps rest
      else
        let ps1 : Peerset := { ps with reserved_peers := peer :: ps.reserved_peers }
        match lookupPeer ps1.peers peer with
        | none =>
            let ps2 : Peerset :=
              { ps1 with peers := insertPeer ps1.peers peer (.opening (.outbound .yes)) }
            let r := add_reserved_peers_loop ps2 rest
            (r.1, peer :: r.2)
        | some .disconnected =>
            let ps2 : Peerset :=
              { ps1 with peers := insertPeer ps1.peers peer (.opening (.outbound .yes)) }
            let r := add_reserved_peers_loop ps2 rest
            (r.1, peer :: r.2)
        | some _ => add_reserved_peers_loop ps1 rest

/-- The `filter_map` loop of `PeersetCommand::RemoveReservedPeers` (peerset.rs
lines 940-1055): peers that are not reserved are skipped; otherwise the peer
is dropped from the reserved set and then Connected peers move to Closing (and
into the emitted close batch), Opening peers move to Canceled, and peers in
Backoff/Canceled/Disconnected/Closing (or without an entry) are unchanged. -/

def remove_reserved_peers_loop (ps : Peerset) : List PeerId → Peerset × List PeerId
  | [] => (ps, [])
  | peer :: rest =>
      if peer ∈ ps.reserved_peers then
        let ps1 : Peerset := { ps with reserved_peers := ps.reserved_peers.erase peer }
        match lookupPeer ps1.peers peer with
        | some (.connected d) =>
            let ps2 : Peerset :=
              { ps1 with peers := insertPeer ps1.peers peer (.closing d) }
            let r := remove_reserved_peers_loop ps2 rest
            (r.1, peer :: r.2)
        | some (.opening d) =>
            let ps2 : Peerset :=
              { ps1 with peers := insertPeer ps1.peers peer (.canceled d) }
            remove_reserved_peers_loop ps2 rest
        | _ => remove_reserved_peers_loop ps1 rest
      else remove_reserved_peers_loop ps rest

/-- The command intake of `poll_next` (peerset.rs lines 808-1100): the effect
of servicing one `PeersetCommand`, returning the updated state and the
notification command emitted for it, if any. -/

def process_command (ps : Peerset) : PeersetCommand → Peerset × Option PeersetNotificationCommand
  | .disconnectPeer peer =>
      match lookupPeer ps.peers peer with
      | some (.connected d) =>
          ({ ps with peers := insertPeer ps.peers peer (.closing d) },
           some (.closeSubstream [peer]))
      | some (.opening d) =>
          ({ ps with peers := insertPeer ps.peers peer (.canceled d) }, none)
      | _ => (ps, none)
  | .setReservedPeers peers =>
      if peers.isEmpty then (ps, none)
      else
        let peers_to_disconnect :=
          ps.reserved_peers.filter (fun peer => ! peers.contains peer)
        let ps1 : Peerset := { ps with reserved_peers := peers }
        if peers_to_disconnect.isEmpty then (ps1, none)
        else (ps1, some (.closeSubstream peers_to_disconnect))
  | .addReservedPeers peers =>
      let r := add_reserved_peers_loop ps peers
      (r.1, some (.openSubstream r.2))
  | .removeReservedPeers peers =>
      let r := remove_reserved_peers_loop ps peers
      (r.1, some (.closeSubstream r.2))
  | .setReservedOnly reserved_only =>
      let ps0 : Peerset := { ps with reserved_only := reserved_only }
      if reserved_only then
        let peers_to_remove :=
          (ps0.peers.filter (fun e =>
            ! ps0.reserved_peers.contains e.1 && is_connected_state e.2)).map Prod.fst
        (({ ps0 with peers := ps0.peers.map (fun e => (e.1, close_or_cancel e.2)) }),
         some (.closeSubstream peers_to_remove))
      else (ps0, none)
  | .getReservedPeers => (ps, none)

/-- The slot-allocation part of `poll_next` (peerset.rs lines 1108-1172).
`banned` is the peerstore's `is_peer_banned`, `candidates` is the answer of
`next_outbound_peers` (queried only when there are free outbound slots and the
set is not reserved-only; the contract that the candidates avoid the ignore
set, contain no duplicates and respect the requested limit is a hypothesis of
the theorems that need it). -/

def slot_allocate (ps : Peerset) (banned : PeerId → Bool) (candidates : List PeerId) :
    Peerset × Option PeersetNotificationCommand :=
  let connect_to :=
    (ps.peers.filter (fun e =>
      ps.reserved_peers.contains e.1 && decide (e.2 = .disconnected) && ! banned e.1)).map
      Prod.fst
  let ps1 : Peerset :=
    { ps with
        peers := connect_to.foldl
          (fun acc p => insertPeer acc p (.opening (.outbound .yes))) ps.peers }
  let step2 : Peerset × List PeerId :=
    if ps1.num_out < ps1.max_out ∧ ps1.reserved_only = false then
      if 0 < candidates.length then
        ({ ps1 with
             peers := candidates.foldl
               (fun acc p => insertPeer acc p (.opening (.outbound .no))) ps1.peers,
             num_out := ps1.num_out + candidates.length },
         connect_to ++ candidates)
      else (ps1, connect_to)
    else (ps1, connect_to)
  if step2.2.isEmpty then (step2.1, none)
  else (step2.1, some (.openSubstream step2.2))

/-- Is the optional state `Opening` or `Canceled` (a substream whose open is
still owed a transport report)? `report_substream_closed` for such a state is
one of the diagnostic anomalies of spec section 7: the transport reported a
close for a substream it never reported open. -/
def pending_open_state : Option PeerState → Bool
  | some (.opening _) => true
  | some (.canceled _) => true
  | _ => false

/-- Concrete state for claim C1: a consistent `Peerset` with one inbound
non-reserved peer, one outbound non-reserved peer and one reserved peer. -/
def psC1 : Peerset :=
  { max_out := 25, num_out := 1, max_in := 25, num_in := 1, reserved_only := false,
    reserved_peers := [5],
    peers := [(1, .connected (.inbound .no)), (2, .opening (.outbound .no)),
              (5, .disconnected)],
    connected_peers := 1, pending_backoffs := [] }

/-- Concrete state for claim C2: same shape as `psC1`. -/
def psC2 : Peerset :=
  { max_out := 25, num_out := 1, max_in := 25, num_in := 1, reserved_only := false,
    reserved_peers := [5],
    peers := [(1, .connected (.inbound .no)), (2, .opening (.outbound .no)),
              (5, .disconnected)],
    connected_peers := 1, pending_backoffs := [] }

/-- Concrete state for claim C3: one reserved peer, connected as reserved. -/
def psC3 : Peerset :=
  { max_out := 25, num_out := 0, max_in := 25, num_in := 0, reserved_only := false,
    reserved_peers := [0], peers := [(0, .connected (.outbound .yes))],
    connected_peers := 1, pending_backoffs := [] }

/-- Concrete state for claim C4: peer 0 is connected (not in `Backoff`) while a
back-off entry for it is still pending. -/
def psC4 : Peerset :=
  { max_out := 25, num_out := 0, max_in := 25, num_in := 0, reserved_only := false,
    reserved_peers := [], peers := [(0, .connected (.outbound .yes))],
    connected_peers := 1, pending_backoffs := [(0, DISCONNECT_ADJUSTMENT)] }

/-- Concrete state for claim C5: peer 0 was dialled as a non-reserved outbound
peer (state `Opening{Outbound(No)}`) and was added to the reserved set while
the dial was in flight, exactly what `AddReservedPeers` produces for a peer in
a non-`Disconnected` state. -/
def psC5 : Peerset :=
  { max_out := 25, num_out := 1, max_in := 25, num_in := 0, reserved_only := false,
    reserved_peers := [0], peers := [(0, .opening (.outbound .no))],
    connected_peers := 0, pending_backoffs := [] }

/-- Concrete state for claim C6: peer 0 opening, peer 1 canceled. -/
def psC6 : Peerset :=
  { max_out := 25, num_out := 2, max_in := 25, num_in := 0, reserved_only := false,
    reserved_peers := [], peers := [(0, .opening (.outbound .no)),
                                    (1, .canceled (.outbound .no))],
    connected_peers := 0, pending_backoffs := [] }

/-- Concrete state for claim C7: peer 0 is `Opening{Inbound(No)}`, so the
inbound slot it holds is already charged: `num_in = 1`. -/
def psC7 : Peerset :=
  { max_out := 25, num_out := 0, max_in := 25, num_in := 1, reserved_only := false,
    reserved_peers := [], peers := [(0, .opening (.inbound .no))],
    connected_peers := 0, pending_backoffs := [] }

/-- Concrete state for claim C8: the inbound budget is exhausted
(`num_in = max_in = 1`) and peer 0 is a non-reserved disconnected peer. -/
def psC8 : Peerset :=
  { max_out := 25, num_out := 0, max_in := 1, num_in := 1, reserved_only := false,
    reserved_peers := [], peers := [(0, .disconnected), (1, .connected (.inbound .no))],
    connected_peers := 1, pending_backoffs := [] }

/-- Concrete state for claim C10: peer 0 is already reserved and peer 1 is not
reserved, so `AddReservedPeers([0])` and `RemoveReservedPeers([1])` both
compute empty batches. -/
def psC10 : Peerset :=
  { max_out := 25, num_out := 0, max_in := 25, num_in := 0, reserved_only := false,
    reserved_peers := [0], peers := [(0, .connected (.outbound .yes))],
    connected_peers := 1, pending_backoffs := [] }

theorem lookupPeer_insertPeer (l : List (PeerId × PeerState)) (p : PeerId) (s : PeerState)
    (q : PeerId) :
    lookupPeer (insertPeer l p s) q = if p = q then some s else lookupPeer l q := by
  induction l with
  | nil =>
      simp only [insertPeer, lookupPeer]
  | cons e rest ih =>
      by_cases hp : e.1 = p
      · subst hp
        by_cases hq : e.1 = q
        · simp [insertPeer, lookupPeer, hq]
        · simp [insertPeer, lookupPeer, hq]
      · by_cases hq : e.1 = q
        · subst hq
          have hpq : ¬ p = e.1 := fun h => hp h.symm
          simp [insertPeer, lookupPeer, hp, hpq]
        · simp [insertPeer, lookupPeer, hp, hq, ih]

theorem lookupPeer_of_mem (l : List (PeerId × PeerState)) (p : PeerId) (s : PeerState)
    (hnd : (l.map Prod.fst).Nodup) (hmem : (p, s) ∈ l) : lookupPeer l p = some s := by
  induction l with
  | nil => cases hmem
  | cons e rest ih =>
      simp only [List.map_cons, List.nodup_cons] at hnd
      rcases List.mem_cons.mp hmem with h | h
      · subst h
        simp [lookupPeer]
      · have hne : e.1 ≠ p := by
          intro hep
          exact hnd.1 (hep ▸ List.mem_map.mpr ⟨(p, s), h, rfl⟩)
        simp [lookupPeer, hne, ih hnd.2 h]

theorem map_fst_insertPeer (l : List (PeerId × PeerState)) (p : PeerId) (s : PeerState) :
    (insertPeer l p s).map Prod.fst =
      if p ∈ l.map Prod.fst then l.map Prod.fst else l.map Prod.fst ++ [p] := by
  induction l with
  | nil => simp [insertPeer]
  | cons e rest ih =>
      by_cases hp : e.1 = p
      · subst hp
        simp [insertPeer]
      · have hne : ¬ p = e.1 := fun h => hp h.symm
        by_cases hmem : p ∈ rest.map Prod.fst
        · simp [insertPeer, hp, hne, hmem, ih]
        · simp [insertPeer, hp, hne, hmem, ih]

theorem keys_insertPeer (l : List (PeerId × PeerState)) (p : PeerId) (s : PeerState)
    (hnd : (l.map Prod.fst).Nodup) : ((insertPeer l p s).map Prod.fst).Nodup := by
  rw [map_fst_insertPeer]
  by_cases hmem : p ∈ l.map Prod.fst
  · simpa [hmem] using hnd
  · simp only [hmem, if_false]
    rw [← List.concat_eq_append]
    exact List.Nodup.concat hmem hnd

theorem count_by_insertPeer (f : PeerState → Bool) (l : List (PeerId × PeerState))
    (p : PeerId) (s : PeerState) :
    count_by f (insertPeer l p s) + charge f (lookupPeer l p)
      = count_by f l + charge f (some s) := by
  induction l with
  | nil => simp [insertPeer, lookupPeer, count_by, charge]
  | cons e rest ih =>
      by_cases hp : e.1 = p
      · simp only [insertPeer, if_pos hp, lookupPeer, count_by, charge]
        omega
      · simp only [insertPeer, if_neg hp, lookupPeer, count_by, charge] at *
        omega

theorem charge_lookupPeer_le (f : PeerState → Bool) (l : List (PeerId × PeerState))
    (p : PeerId) : charge f (lookupPeer l p) ≤ count_by f l := by
  induction l with
  | nil => simp [lookupPeer, charge]
  | cons e rest ih =>
      by_cases hp : e.1 = p
      · simp only [lookupPeer, if_pos hp, count_by, charge]
        split <;> omega
      · simp only [lookupPeer, if_neg hp, count_by]
        omega

theorem lookupPeer_foldl_insertPeer (xs : List PeerId) (l : List (PeerId × PeerState))
    (s : PeerState) (q : PeerId) :
    lookupPeer (xs.foldl (fun acc p => insertPeer acc p s) l) q
      = if q ∈ xs then some s else lookupPeer l q := by
  induction xs generalizing l with
  | nil => simp
  | cons p rest ih =>
      simp only [List.foldl_cons, ih, lookupPeer_insertPeer, List.mem_cons]
      by_cases hq : q ∈ rest
      · simp [hq]
      · by_cases hpq : p = q
        · simp [hq, hpq]
        · have : ¬ q = p := fun h => hpq h.symm
          simp [hq, hpq, this]

theorem count_by_foldl_insertPeer (f : PeerState → Bool) (xs : List PeerId)
    (l : List (PeerId × PeerState)) (s : PeerState)
    (h0 : ∀ p ∈ xs, charge f (lookupPeer l p) = 0) (hnd : xs.Nodup) :
    count_by f (xs.foldl (fun acc p => insertPeer acc p s) l)
      = count_by f l + xs.length * charge f (some s) := by
  induction xs generalizing l with
  | nil => simp
  | cons p rest ih =>
      simp only [List.nodup_cons] at hnd
      have hlook : ∀ q ∈ rest, charge f (lookupPeer (insertPeer l p s) q) = 0 := by
        intro q hq
        rw [lookupPeer_insertPeer]
        have : ¬ p = q := fun h => hnd.1 (h ▸ hq)
        rw [if_neg this]
        exact h0 q (List.mem_cons_of_mem _ hq)
      have hstep := count_by_insertPeer f l p s
      rw [h0 p (List.mem_cons_self p rest)] at hstep
      simp only [List.foldl_cons, ih (insertPeer l p s) hlook hnd.2, List.length_cons]
      have hmul : (rest.length + 1) * charge f (some s)
          = rest.length * charge f (some s) + charge f (some s) := by ring
      omega

theorem charged_dir_preserved_counts_in (s t : PeerState)
    (h : charged_dir s = charged_dir t) : counts_in_no s = counts_in_no t := by
  simp [counts_in_no, h]

theorem charged_dir_preserved_counts_out (s t : PeerState)
    (h : charged_dir s = charged_dir t) : counts_out_no s = counts_out_no t := by
  simp [counts_out_no, h]

/-- C9: processing `SetReservedPeers` with an empty peer set leaves the entire
`Peerset` state unchanged (reserved set, per-peer states, counters, mode) and
produces no output command (peerset.rs line 885: the whole handler is guarded
by `!peers.is_empty()`). -/
theorem c9_set_reserved_peers_empty_noop (ps : Peerset) :
    process_command ps (.setReservedPeers []) = (ps, none) := by
  simp [process_command]

/-- C10: a poll step that processes `AddReservedPeers` always yields an
`OpenSubstream` output and one that processes `RemoveReservedPeers` always
yields a `CloseSubstream` output, even when the computed peer list is empty:
the handlers return `Poll::Ready(Some(..))` unconditionally (peerset.rs lines
906 and 939). The last two conjuncts show concrete empty batches: every added
peer of `psC10` is already reserved, and its removed peer is not reserved. -/
theorem c10_add_remove_always_emit (ps : Peerset) (add_peers remove_peers : List PeerId) :
    (∃ batch, (process_command ps (.addReservedPeers add_peers)).2
        = some (.openSubstream batch)) ∧
    (∃ batch, (process_command ps (.removeReservedPeers remove_peers)).2
        = some (.closeSubstream batch)) ∧
    (process_command psC10 (.addReservedPeers [0])).2 = some (.openSubstream []) ∧
    (process_command psC10 (.removeReservedPeers [1])).2 = some (.closeSubstream []) := by
  refine ⟨⟨(add_reserved_peers_loop ps add_peers).2, ?_⟩,
    ⟨(remove_reserved_peers_loop ps remove_peers).2, ?_⟩, by decide, by decide⟩
  · simp [process_command]
  · simp [process_command]

/-- C3 (code bug): processing `SetReservedOnly(true)` on `psC3` moves the
*reserved* connected peer 0 to `Closing{Outbound(Yes)}` even though the claim
(and the source comment at peerset.rs line 1061, "disconnect all non-reserved
peers") say reserved peers' states are left unchanged; the emitted
`CloseSubstream` batch is empty, so no close is ever issued for the peer the
code just moved to `Closing`. The `iter_mut().for_each` at peerset.rs lines
1080-1090 mutates every peer without checking reserved membership. -/
theorem c3_set_reserved_only_moves_reserved_peer :
    0 ∈ psC3.reserved_peers ∧
    lookupPeer psC3.peers 0 = some (.connected (.outbound .yes)) ∧
    lookupPeer (process_command psC3 (.setReservedOnly true)).1.peers 0
      = some (.closing (.outbound .yes)) ∧
    (process_command psC3 (.setReservedOnly true)).2
      = some (.closeSubstream []) := by
  decide

/-- C4 (counterexample): when the pending back-off entry for peer 0 of `psC4`
expires, the code sets peer 0 to `Disconnected` even though its state is
`Connected{Outbound(Yes)}`, not `Backoff`; the claim says a peer in any state
other than `Backoff` is left unchanged. The drain loop at peerset.rs lines
761-767 inserts `PeerState::Disconnected` without inspecting the state. -/
theorem c4_backoff_expiry_counterexample :
    (0, DISCONNECT_ADJUSTMENT) ∈ psC4.pending_backoffs ∧
    lookupPeer psC4.peers 0 = some (.connected (.outbound .yes)) ∧
    lookupPeer (process_backoff_expiry psC4 0 DISCONNECT_ADJUSTMENT).1.peers 0
      = some .disconnected := by
  decide

/-- C4 (amended): when a pending back-off entry for peer p expires during a
poll step, p's state is set to `Disconnected` unconditionally, whatever its
current state, and the entry's reputation delta is always submitted to the
peerstore. -/
theorem c4_backoff_expiry_unconditional (ps : Peerset) (peer : PeerId) (reputation : Int) :
    lookupPeer (process_backoff_expiry ps peer reputation).1.peers peer
        = some .disconnected ∧
    (process_backoff_expiry ps peer reputation).2 = (peer, reputation) := by
  constructor
  · simp [process_backoff_expiry, lookupPeer_insertPeer]
  · rfl

/-- C5 (code bug): `report_inbound_substream` does not always terminate
normally with Accept or Reject: for a peer in state `Opening{Outbound(No)}`
that is currently in the reserved set (the state `AddReservedPeers` produces
when a peer is added to the reserved set while a non-reserved dial is in
flight, which the spec explicitly allows), the `(true, Reserved::No)` arm of
the match at peerset.rs lines 534-541 hits `panic!` instead of the claimed
Reject-with-logged-violation; `none` is the model of the panic. -/
theorem c5_inbound_substream_panics :
    0 ∈ psC5.reserved_peers ∧
    lookupPeer psC5.peers 0 = some (.opening (.outbound .no)) ∧
    report_inbound_substream psC5 0 = none := by
  decide

/-- C6: for every known peer, `report_substream_opened(peer, dir)` in state
`Opening{d}` sets the state to `Connected{d}`, increments the shared
connected-peer gauge by one and returns `keep = true`; in state `Canceled{d}`
it sets the state to `Closing{d}`, increments the gauge by one and returns
`keep = false` (peerset.rs lines 415-435). -/
theorem c6_substream_opened_transitions (ps : Peerset) (peer : PeerId) (d : Direction)
    (dir : TransportDirection) :
    (lookupPeer ps.peers peer = some (.opening d) →
      ∃ ps1, report_substream_opened ps peer dir = some (ps1, true) ∧
        lookupPeer ps1.peers peer = some (.connected d) ∧
        ps1.connected_peers = ps.connected_peers + 1) ∧
    (lookupPeer ps.peers peer = some (.canceled d) →
      ∃ ps1, report_substream_opened ps peer dir = some (ps1, false) ∧
        lookupPeer ps1.peers peer = some (.closing d) ∧
        ps1.connected_peers = ps.connected_peers + 1) := by
  constructor
  · intro h
    have hopen : report_substream_opened ps peer dir = some ({ ps with peers := insertPeer ps.peers peer (.connected d), connected_peers := ps.connected_peers + 1 }, true) := by
      simp [report_substream_opened, h]
    refine ⟨_, hopen, ?_, rfl⟩
    simp [lookupPeer_insertPeer]
  · intro h
    have hopen : report_substream_opened ps peer dir = some ({ ps with peers := insertPeer ps.peers peer (.closing d), connected_peers := ps.connected_peers + 1 }, false) := by
      simp [report_substream_opened, h]
    refine ⟨_, hopen, ?_, rfl⟩
    simp [lookupPeer_insertPeer]

/-- C6 (witness): the transitions at the concrete state `psC6` for the opening
peer 0 and the canceled peer 1. -/
theorem c6_substream_opened_transitions_witness :
    lookupPeer psC6.peers 0 = some (.opening (.outbound .no)) ∧
    lookupPeer psC6.peers 1 = some (.canceled (.outbound .no)) ∧
    (∃ ps1, report_substream_opened psC6 0 .outbound = some (ps1, true) ∧
      lookupPeer ps1.peers 0 = some (.connected (.outbound .no)) ∧
      ps1.connected_peers = psC6.connected_peers + 1) ∧
    (∃ ps1, report_substream_opened psC6 1 .outbound = some (ps1, false) ∧
      lookupPeer ps1.peers 1 = some (.closing (.outbound .no)) ∧
      ps1.connected_peers = psC6.connected_peers + 1) :=
  ⟨by decide, by decide,
    (c6_substream_opened_transitions psC6 0 (.outbound .no) .outbound).1 (by decide),
    (c6_substream_opened_transitions psC6 1 (.outbound .no) .outbound).2 (by decide)⟩

/-- C7 (counterexample): peer 0 of `psC7` is in state `Opening{Inbound(No)}`
with `num_in = 1` (the inbound slot was charged when the peer entered
Opening); after `report_substream_opened` followed by
`report_substream_closed`, `num_in` is 0, not the pre-open value 1 — the pair
of calls does not restore the counters to the values they had immediately
before `report_substream_opened`. -/
theorem c7_counters_not_restored :
    psC7.num_in = 1 ∧
    (report_substream_opened psC7 0 .inbound).map
        (fun r => (report_substream_closed r.1 0).num_in) = some 0 := by
  decide

/-- C7 (amended): for a peer in `Opening{d}`, `report_substream_opened`
followed by `report_substream_closed` leaves the peer in `Backoff` and leaves
the counters at their pre-open values minus exactly the slot recorded in the
direction `d`: `num_in` drops by one when `d = Inbound(No)`, `num_out` drops
by one when `d = Outbound(No)`, and for reserved directions both counters keep
their pre-open values; the same holds for a peer already in `Connected{d}`
with `report_substream_closed` alone. -/
theorem c7_open_close_slot_release (ps : Peerset) (peer : PeerId) (d : Direction)
    (dir : TransportDirection) :
    (lookupPeer ps.peers peer = some (.opening d) →
      ∃ ps1, report_substream_opened ps peer dir = some (ps1, true) ∧
        lookupPeer (report_substream_closed ps1 peer).peers peer = some .backoff ∧
        (report_substream_closed ps1 peer).num_in
          = ps.num_in - (if d = .inbound .no then 1 else 0) ∧
        (report_substream_closed ps1 peer).num_out
          = ps.num_out - (if d = .outbound .no then 1 else 0)) ∧
    (lookupPeer ps.peers peer = some (.connected d) →
      lookupPeer (report_substream_closed ps peer).peers peer = some .backoff ∧
      (report_substream_closed ps peer).num_in
        = ps.num_in - (if d = .inbound .no then 1 else 0) ∧
      (report_substream_closed ps peer).num_out
        = ps.num_out - (if d = .outbound .no then 1 else 0)) := by
  constructor
  · intro h
    have hopen : report_substream_opened ps peer dir = some ({ ps with peers := insertPeer ps.peers peer (.connected d), connected_peers := ps.connected_peers + 1 }, true) := by
      simp [report_substream_opened, h]
    refine ⟨_, hopen, ?_⟩
    rcases d with r | r <;> rcases r <;>
      simp [report_substream_closed, lookupPeer_insertPeer]
  · intro h
    rcases d with r | r <;> rcases r <;>
      simp [report_substream_closed, h, lookupPeer_insertPeer]

/-- C7 (amended, witness): the amended statement applied at `psC7`, whose peer
0 is `Opening{Inbound(No)}`. -/
theorem c7_open_close_slot_release_witness :
    lookupPeer psC7.peers 0 = some (.opening (.inbound .no)) ∧
    (∃ ps1, report_substream_opened psC7 0 .inbound = some (ps1, true) ∧
      lookupPeer (report_substream_closed ps1 0).peers 0 = some .backoff ∧
      (report_substream_closed ps1 0).num_in
        = psC7.num_in - (if (Direction.inbound .no) = .inbound .no then 1 else 0) ∧
      (report_substream_closed ps1 0).num_out
        = psC7.num_out - (if (Direction.inbound .no) = .outbound .no then 1 else 0)) :=
  ⟨by decide, (c7_open_close_slot_release psC7 0 (.inbound .no) .inbound).1 (by decide)⟩

/-- C8: when `num_in = max_in`, a call to `report_inbound_substream` for a
peer that is not in the reserved set and is absent or `Disconnected` returns
Reject, and neither `num_in` nor `num_out` changes (peerset.rs lines 605-620:
the non-reserved tail only accepts while `num_in < max_in`). -/
theorem c8_inbound_rejected_at_capacity (ps : Peerset) (peer : PeerId)
    (hfull : ps.num_in = ps.max_in)
    (hres : ps.reserved_peers.contains peer = false)
    (hstate : lookupPeer ps.peers peer = none ∨
      lookupPeer ps.peers peer = some .disconnected) :
    ∃ ps1, report_inbound_substream ps peer = some (ps1, .reject) ∧
      ps1.num_in = ps.num_in ∧ ps1.num_out = ps.num_out := by
  have hres' : peer ∉ ps.reserved_peers := by simpa using hres
  have hnot : ¬ ps.num_in < ps.max_in := by omega
  rcases hstate with h | h
  · exact ⟨{ ps with
        peers := insertPeer (insertPeer ps.peers peer .disconnected) peer .disconnected },
      by simp [report_inbound_substream, h, inbound_slot_allocation, hres', hnot], rfl, rfl⟩
  · exact ⟨{ ps with peers := insertPeer ps.peers peer .disconnected },
      by simp [report_inbound_substream, h, inbound_slot_allocation, hres', hnot], rfl, rfl⟩

/-- C8 (witness): the statement applied at `psC8` (inbound budget exhausted,
peer 0 disconnected and not reserved). -/
theorem c8_inbound_rejected_at_capacity_witness :
    psC8.num_in = psC8.max_in ∧ psC8.reserved_peers.contains 0 = false ∧
    (∃ ps1, report_inbound_substream psC8 0 = some (ps1, .reject) ∧
      ps1.num_in = psC8.num_in ∧ ps1.num_out = psC8.num_out) :=
  ⟨by decide, by decide,
    c8_inbound_rejected_at_capacity psC8 0 (by decide) (by decide) (Or.inr (by decide))⟩

theorem charge_congr_in (s t : PeerState) (h : charged_dir s = charged_dir t) :
    charge counts_in_no (some s) = charge counts_in_no (some t) := by
  simp [charge, counts_in_no, h]

theorem charge_congr_out (s t : PeerState) (h : charged_dir s = charged_dir t) :
    charge counts_out_no (some s) = charge counts_out_no (some t) := by
  simp [charge, counts_out_no, h]

theorem cc_insert_one (ps : Peerset) (peer : PeerId) (s t : PeerState) (nin nout : Nat)
    (hlook : lookupPeer ps.peers peer = some t)
    (h1 : ps.num_in = count_by counts_in_no ps.peers)
    (h2 : ps.num_out = count_by counts_out_no ps.peers)
    (hin : nin + charge counts_in_no (some t) = ps.num_in + charge counts_in_no (some s))
    (hout : nout + charge counts_out_no (some t) = ps.num_out + charge counts_out_no (some s)) :
    nin = count_by counts_in_no (insertPeer ps.peers peer s) ∧
      nout = count_by counts_out_no (insertPeer ps.peers peer s) := by
  have hiIn := count_by_insertPeer counts_in_no ps.peers peer s
  have hiOut := count_by_insertPeer counts_out_no ps.peers peer s
  rw [hlook] at hiIn hiOut
  constructor <;> omega

theorem cc_report_substream_opened (ps : Peerset) (peer : PeerId)
    (dir : TransportDirection) (ps1 : Peerset) (keep : Bool)
    (hcc : counters_consistent ps)
    (h : report_substream_opened ps peer dir = some (ps1, keep)) :
    counters_consistent ps1 := by
  obtain ⟨h1, h2⟩ := hcc
  cases hlook : lookupPeer ps.peers peer with
  | none =>
      simp only [report_substream_opened, hlook, Option.some.injEq, Prod.mk.injEq] at h
      obtain ⟨rfl, rfl⟩ := h
      exact ⟨h1, h2⟩
  | some st =>
      cases st with
      | opening d =>
          simp only [report_substream_opened, hlook, Option.some.injEq, Prod.mk.injEq] at h
          obtain ⟨rfl, rfl⟩ := h
          exact cc_insert_one ps peer (.connected d) (.opening d) ps.num_in ps.num_out hlook
            h1 h2 (by rw [charge_congr_in (.connected d) (.opening d) rfl])
            (by rw [charge_congr_out (.connected d) (.opening d) rfl])
      | canceled d =>
          simp only [report_substream_opened, hlook, Option.some.injEq, Prod.mk.injEq] at h
          obtain ⟨rfl, rfl⟩ := h
          exact cc_insert_one ps peer (.closing d) (.canceled d) ps.num_in ps.num_out hlook
            h1 h2 (by rw [charge_congr_in (.closing d) (.canceled d) rfl])
            (by rw [charge_congr_out (.closing d) (.canceled d) rfl])
      | disconnected => simp [report_substream_opened, hlook] at h
      | backoff => simp [report_substream_opened, hlook] at h
      | connected d => simp [report_substream_opened, hlook] at h
      | closing d => simp [report_substream_opened, hlook] at h

theorem cc_report_substream_closed (ps : Peerset) (peer : PeerId)
    (hcc : counters_consistent ps)
    (hvalid : pending_open_state (lookupPeer ps.peers peer) = false) :
    counters_consistent (report_substream_closed ps peer) := by
  obtain ⟨h1, h2⟩ := hcc
  cases hlook : lookupPeer ps.peers peer with
  | none =>
      simp only [report_substream_closed, hlook]
      exact ⟨h1, h2⟩
  | some st =>
      rw [hlook] at hvalid
      cases st with
      | opening d => simp [pending_open_state] at hvalid
      | canceled d => simp [pending_open_state] at hvalid
      | disconnected =>
          simp only [report_substream_closed, hlook]
          exact cc_insert_one ps peer .backoff .disconnected ps.num_in ps.num_out hlook
            h1 h2 rfl rfl
      | backoff =>
          simp only [report_substream_closed, hlook]
          exact cc_insert_one ps peer .backoff .backoff ps.num_in ps.num_out hlook
            h1 h2 rfl rfl
      | connected d =>
          rcases d with r | r <;> rcases r <;> simp only [report_substream_closed, hlook]
          · exact cc_insert_one ps peer .backoff (.connected (.inbound .yes))
              ps.num_in ps.num_out hlook h1 h2 rfl rfl
          · have hle := charge_lookupPeer_le counts_in_no ps.peers peer
            rw [hlook] at hle
            have e1 : charge counts_in_no (some (PeerState.connected (.inbound .no))) = 1 := rfl
            have e2 : charge counts_in_no (some PeerState.backoff) = 0 := rfl
            exact cc_insert_one ps peer .backoff (.connected (.inbound .no))
              (ps.num_in - 1) ps.num_out hlook h1 h2 (by omega) rfl
          · exact cc_insert_one ps peer .backoff (.connected (.outbound .yes))
              ps.num_in ps.num_out hlook h1 h2 rfl rfl
          · have hle := charge_lookupPeer_le counts_out_no ps.peers peer
            rw [hlook] at hle
            have e1 : charge counts_out_no (some (PeerState.connected (.outbound .no))) = 1 := rfl
            have e2 : charge counts_out_no (some PeerState.backoff) = 0 := rfl
            exact cc_insert_one ps peer .backoff (.connected (.outbound .no))
              ps.num_in (ps.num_out - 1) hlook h1 h2 rfl (by omega)
      | closing d =>
          rcases d with r | r <;> rcases r <;> simp only [report_substream_closed, hlook]
          · exact cc_insert_one ps peer .backoff (.closing (.inbound .yes))
              ps.num_in ps.num_out hlook h1 h2 rfl rfl
          · have hle := charge_lookupPeer_le counts_in_no ps.peers peer
            rw [hlook] at hle
            have e1 : charge counts_in_no (some (PeerState.closing (.inbound .no))) = 1 := rfl
            have e2 : charge counts_in_no (some PeerState.backoff) = 0 := rfl
            exact cc_insert_one ps peer .backoff (.closing (.inbound .no))
              (ps.num_in - 1) ps.num_out hlook h1 h2 (by omega) rfl
          · exact cc_insert_one ps peer .backoff (.closing (.outbound .yes))
              ps.num_in ps.num_out hlook h1 h2 rfl rfl
          · have hle := charge_lookupPeer_le counts_out_no ps.peers peer
            rw [hlook] at hle
            have e1 : charge counts_out_no (some (PeerState.closing (.outbound .no))) = 1 := rfl
            have e2 : charge counts_out_no (some PeerState.backoff) = 0 := rfl
            exact cc_insert_one ps peer .backoff (.closing (.outbound .no))
              ps.num_in (ps.num_out - 1) hlook h1 h2 rfl (by omega)

theorem count_insert_pair (l : List (PeerId × PeerState)) (peer : PeerId)
    (s t : PeerState) (nin nout : Nat)
    (hlook : lookupPeer l peer = some t)
    (hin : nin + charge counts_in_no (some t)
      = count_by counts_in_no l + charge counts_in_no (some s))
    (hout : nout + charge counts_out_no (some t)
      = count_by counts_out_no l + charge counts_out_no (some s)) :
    nin = count_by counts_in_no (insertPeer l peer s) ∧
      nout = count_by counts_out_no (insertPeer l peer s) := by
  have hiIn := count_by_insertPeer counts_in_no l peer s
  have hiOut := count_by_insertPeer counts_out_no l peer s
  rw [hlook] at hiIn hiOut
  constructor <;> omega

theorem cc_inbound_slot_allocation (ps : Peerset) (peer : PeerId) (r : Bool) (t : PeerState)
    (hlook : lookupPeer ps.peers peer = some t)
    (hchin : charge counts_in_no (some t) = 0)
    (h1 : ps.num_in = count_by counts_in_no ps.peers)
    (h2 : ps.num_out + charge counts_out_no (some t) = count_by counts_out_no ps.peers) :
    counters_consistent (inbound_slot_allocation ps peer r).1 := by
  cases r with
  | true =>
      simp only [inbound_slot_allocation, if_pos]
      exact count_insert_pair ps.peers peer (.opening (.inbound .yes)) t ps.num_in ps.num_out
        hlook
        (by have e : charge counts_in_no (some (PeerState.opening (.inbound .yes))) = 0 := rfl
            omega)
        (by have e : charge counts_out_no (some (PeerState.opening (.inbound .yes))) = 0 := rfl
            omega)
  | false =>
      by_cases hfree : ps.num_in < ps.max_in
      · simp only [inbound_slot_allocation, Bool.false_eq_true, if_false, if_pos hfree]
        exact count_insert_pair ps.peers peer (.opening (.inbound .no)) t
          (ps.num_in + 1) ps.num_out hlook
          (by have e : charge counts_in_no (some (PeerState.opening (.inbound .no))) = 1 := rfl
              omega)
          (by have e : charge counts_out_no (some (PeerState.opening (.inbound .no))) = 0 := rfl
              omega)
      · simp only [inbound_slot_allocation, Bool.false_eq_true, if_false, if_neg hfree]
        exact count_insert_pair ps.peers peer .disconnected t ps.num_in ps.num_out hlook
          (by have e : charge counts_in_no (some PeerState.disconnected) = 0 := rfl
              omega)
          (by have e : charge counts_out_no (some PeerState.disconnected) = 0 := rfl
              omega)

theorem cc_inbound_slot_allocation_inv (ps : Peerset) (peer : PeerId) (r : Bool)
    (t : PeerState) (ps1 : Peerset) (v : ValidationResult)
    (h : inbound_slot_allocation ps peer r = (ps1, v))
    (hlook : lookupPeer ps.peers peer = some t)
    (hchin : charge counts_in_no (some t) = 0)
    (h1 : ps.num_in = count_by counts_in_no ps.peers)
    (h2 : ps.num_out + charge counts_out_no (some t) = count_by counts_out_no ps.peers) :
    counters_consistent ps1 := by
  have hccA := cc_inbound_slot_allocation ps peer r t hlook hchin h1 h2
  rw [h] at hccA
  exact hccA

theorem cc_report_inbound_substream (ps : Peerset) (peer : PeerId)
    (ps1 : Peerset) (v : ValidationResult)
    (hcc : counters_consistent ps)
    (h : report_inbound_substream ps peer = some (ps1, v)) :
    counters_consistent ps1 := by
  obtain ⟨h1, h2⟩ := hcc
  cases hlook : lookupPeer ps.peers peer with
  | none =>
      simp only [report_inbound_substream, hlook, Option.some.injEq] at h
      have hiIn := count_by_insertPeer counts_in_no ps.peers peer .disconnected
      have hiOut := count_by_insertPeer counts_out_no ps.peers peer .disconnected
      rw [hlook] at hiIn hiOut
      refine cc_inbound_slot_allocation_inv _ peer _ PeerState.disconnected ps1 v h
        (by simp [lookupPeer_insertPeer]) rfl ?_ ?_
      · have e : charge counts_in_no (some PeerState.disconnected) = 0 := rfl
        have e0 : charge counts_in_no (none : Option PeerState) = 0 := rfl
        simp only []
        omega
      · have e : charge counts_out_no (some PeerState.disconnected) = 0 := rfl
        have e0 : charge counts_out_no (none : Option PeerState) = 0 := rfl
        simp only []
        omega
  | some st =>
      cases st with
      | disconnected =>
          simp only [report_inbound_substream, hlook, Option.some.injEq] at h
          refine cc_inbound_slot_allocation_inv ps peer _ PeerState.disconnected ps1 v h
            hlook rfl h1 ?_
          have e : charge counts_out_no (some PeerState.disconnected) = 0 := rfl
          omega
      | backoff =>
          simp only [report_inbound_substream, hlook, Option.some.injEq, Prod.mk.injEq] at h
          obtain ⟨rfl, rfl⟩ := h
          exact ⟨h1, h2⟩
      | connected d =>
          simp only [report_inbound_substream, hlook, Option.some.injEq, Prod.mk.injEq] at h
          obtain ⟨rfl, rfl⟩ := h
          exact ⟨h1, h2⟩
      | closing d =>
          simp only [report_inbound_substream, hlook, Option.some.injEq, Prod.mk.injEq] at h
          obtain ⟨rfl, rfl⟩ := h
          exact ⟨h1, h2⟩
      | opening d =>
          rcases d with r | rsv
          · simp only [report_inbound_substream, hlook, Option.some.injEq, Prod.mk.injEq] at h
            obtain ⟨rfl, rfl⟩ := h
            exact ⟨h1, h2⟩
          · by_cases hr : peer ∈ ps.reserved_peers
            · cases rsv with
              | yes =>
                  simp only [report_inbound_substream, hlook, hr, List.elem_eq_mem,
                    decide_True, Option.some.injEq] at h
                  refine cc_inbound_slot_allocation_inv ps peer _
                    (PeerState.opening (.outbound .yes)) ps1 v h hlook rfl h1 ?_
                  have e : charge counts_out_no
                      (some (PeerState.opening (.outbound .yes))) = 0 := rfl
                  omega
              | no => simp [report_inbound_substream, hlook, hr, List.elem_eq_mem] at h
            · cases rsv with
              | yes => simp [report_inbound_substream, hlook, hr, List.elem_eq_mem] at h
              | no =>
                  have hle := charge_lookupPeer_le counts_out_no ps.peers peer
                  rw [hlook] at hle
                  have e1 : charge counts_out_no
                      (some (PeerState.opening (.outbound .no))) = 1 := rfl
                  by_cases hfull : ps.max_in ≤ ps.num_in
                  · simp only [report_inbound_substream, hlook, hr, List.elem_eq_mem,
                      decide_False, if_pos hfull, Option.some.injEq, Prod.mk.injEq] at h
                    obtain ⟨rfl, rfl⟩ := h
                    refine count_insert_pair ps.peers peer PeerState.disconnected
                      (.opening (.outbound .no)) ps.num_in (ps.num_out - 1) hlook ?_ ?_
                    · have e2 : charge counts_in_no
                          (some (PeerState.opening (.outbound .no))) = 0 := rfl
                      have e3 : charge counts_in_no (some PeerState.disconnected) = 0 := rfl
                      omega
                    · have e3 : charge counts_out_no (some PeerState.disconnected) = 0 := rfl
                      omega
                  · simp only [report_inbound_substream, hlook, hr, List.elem_eq_mem,
                      decide_False, if_neg hfull, Option.some.injEq] at h
                    refine cc_inbound_slot_allocation_inv _ peer _
                      (PeerState.opening (.outbound .no)) ps1 v h hlook rfl h1 ?_
                    simp only []
                    omega
      | canceled d =>
          rcases d with r | rsv
          · simp [report_inbound_substream, hlook] at h
          · cases rsv with
            | yes =>
                simp only [report_inbound_substream, hlook, Option.some.injEq,
                  Prod.mk.injEq] at h
                obtain ⟨rfl, rfl⟩ := h
                refine count_insert_pair ps.peers peer PeerState.disconnected
                  (.canceled (.outbound .yes)) ps.num_in ps.num_out hlook ?_ ?_
                · have e2 : charge counts_in_no
                      (some (PeerState.canceled (.outbound .yes))) = 0 := rfl
                  have e3 : charge counts_in_no (some PeerState.disconnected) = 0 := rfl
                  omega
                · have e2 : charge counts_out_no
                      (some (PeerState.canceled (.outbound .yes))) = 0 := rfl
                  have e3 : charge counts_out_no (some PeerState.disconnected) = 0 := rfl
                  omega
            | no =>
                have hle := charge_lookupPeer_le counts_out_no ps.peers peer
                rw [hlook] at hle
                have e1 : charge counts_out_no
                    (some (PeerState.canceled (.outbound .no))) = 1 := rfl
                simp only [report_inbound_substream, hlook, Option.some.injEq,
                  Prod.mk.injEq] at h
                obtain ⟨rfl, rfl⟩ := h
                refine count_insert_pair ps.peers peer PeerState.disconnected
                  (.canceled (.outbound .no)) ps.num_in (ps.num_out - 1) hlook ?_ ?_
                · have e2 : charge counts_in_no
                      (some (PeerState.canceled (.outbound .no))) = 0 := rfl
                  have e3 : charge counts_in_no (some PeerState.disconnected) = 0 := rfl
                  omega
                · have e3 : charge counts_out_no (some PeerState.disconnected) = 0 := rfl
                  omega

theorem cc_report_substream_open_failure (ps : Peerset) (peer : PeerId) (ps1 : Peerset)
    (hcc : counters_consistent ps)
    (h : report_substream_open_failure ps peer = some ps1) :
    counters_consistent ps1 := by
  obtain ⟨h1, h2⟩ := hcc
  cases hlook : lookupPeer ps.peers peer with
  | none => simp [report_substream_open_failure, hlook] at h
  | some st =>
      cases st with
      | disconnected => simp [report_substream_open_failure, hlook] at h
      | backoff => simp [report_substream_open_failure, hlook] at h
      | connected d => simp [report_substream_open_failure, hlook] at h
      | closing d => simp [report_substream_open_failure, hlook] at h
      | opening d =>
          rcases d with r | r <;> rcases r <;>
            simp only [report_substream_open_failure, hlook, Option.some.injEq] at h <;>
            subst h
          · refine count_insert_pair ps.peers peer PeerState.backoff
              (.opening (.inbound .yes)) ps.num_in ps.num_out hlook (by rw [← h1]; simp [charge, counts_in_no, charged_dir]) (by rw [← h2]; simp [charge, counts_out_no, charged_dir])
          · have hle := charge_lookupPeer_le counts_in_no ps.peers peer
            rw [hlook] at hle
            have e1 : charge counts_in_no (some (PeerState.opening (.inbound .no))) = 1 := rfl
            have e2 : charge counts_in_no (some PeerState.backoff) = 0 := rfl
            refine count_insert_pair ps.peers peer PeerState.backoff
              (.opening (.inbound .no)) (ps.num_in - 1) ps.num_out hlook (by omega) (by rw [← h2]; simp [charge, counts_out_no, charged_dir])
          · refine count_insert_pair ps.peers peer PeerState.backoff
              (.opening (.outbound .yes)) ps.num_in ps.num_out hlook (by rw [← h1]; simp [charge, counts_in_no, charged_dir]) (by rw [← h2]; simp [charge, counts_out_no, charged_dir])
          · have hle := charge_lookupPeer_le counts_out_no ps.peers peer
            rw [hlook] at hle
            have e1 : charge counts_out_no (some (PeerState.opening (.outbound .no))) = 1 := rfl
            have e2 : charge counts_out_no (some PeerState.backoff) = 0 := rfl
            refine count_insert_pair ps.peers peer PeerState.backoff
              (.opening (.outbound .no)) ps.num_in (ps.num_out - 1) hlook (by rw [← h1]; simp [charge, counts_in_no, charged_dir]) (by omega)
      | canceled d =>
          rcases d with r | r <;> rcases r <;>
            simp only [report_substream_open_failure, hlook, Option.some.injEq] at h <;>
            subst h
          · refine count_insert_pair ps.peers peer PeerState.backoff
              (.canceled (.inbound .yes)) ps.num_in ps.num_out hlook (by rw [← h1]; simp [charge, counts_in_no, charged_dir]) (by rw [← h2]; simp [charge, counts_out_no, charged_dir])
          · have hle := charge_lookupPeer_le counts_in_no ps.peers peer
            rw [hlook] at hle
            have e1 : charge counts_in_no (some (PeerState.canceled (.inbound .no))) = 1 := rfl
            have e2 : charge counts_in_no (some PeerState.backoff) = 0 := rfl
            refine count_insert_pair ps.peers peer PeerState.backoff
              (.canceled (.inbound .no)) (ps.num_in - 1) ps.num_out hlook (by omega) (by rw [← h2]; simp [charge, counts_out_no, charged_dir])
          · refine count_insert_pair ps.peers peer PeerState.backoff
              (.canceled (.outbound .yes)) ps.num_in ps.num_out hlook (by rw [← h1]; simp [charge, counts_in_no, charged_dir]) (by rw [← h2]; simp [charge, counts_out_no, charged_dir])
          · have hle := charge_lookupPeer_le counts_out_no ps.peers peer
            rw [hlook] at hle
            have e1 : charge counts_out_no (some (PeerState.canceled (.outbound .no))) = 1 := rfl
            have e2 : charge counts_out_no (some PeerState.backoff) = 0 := rfl
            refine count_insert_pair ps.peers peer PeerState.backoff
              (.canceled (.outbound .no)) ps.num_in (ps.num_out - 1) hlook (by rw [← h1]; simp [charge, counts_in_no, charged_dir]) (by omega)

theorem cc_report_substream_rejected (ps : Peerset) (peer : PeerId)
    (hcc : counters_consistent ps) :
    counters_consistent (report_substream_rejected ps peer) := by
  obtain ⟨h1, h2⟩ := hcc
  cases hlook : lookupPeer ps.peers peer with
  | none =>
      simp only [report_substream_rejected, hlook]
      exact ⟨h1, h2⟩
  | some st =>
      cases st with
      | disconnected => simp only [report_substream_rejected, hlook]; exact ⟨h1, h2⟩
      | backoff => simp only [report_substream_rejected, hlook]; exact ⟨h1, h2⟩
      | connected d => simp only [report_substream_rejected, hlook]; exact ⟨h1, h2⟩
      | closing d => simp only [report_substream_rejected, hlook]; exact ⟨h1, h2⟩
      | canceled d => simp only [report_substream_rejected, hlook]; exact ⟨h1, h2⟩
      | opening d =>
          rcases d with r | r <;> rcases r <;> simp only [report_substream_rejected, hlook]
          · exact count_insert_pair ps.peers peer PeerState.disconnected
              (.opening (.inbound .yes)) ps.num_in ps.num_out hlook (by rw [← h1]; simp [charge, counts_in_no, charged_dir]) (by rw [← h2]; simp [charge, counts_out_no, charged_dir])
          · have hle := charge_lookupPeer_le counts_in_no ps.peers peer
            rw [hlook] at hle
            have e1 : charge counts_in_no (some (PeerState.opening (.inbound .no))) = 1 := rfl
            have e2 : charge counts_in_no (some PeerState.disconnected) = 0 := rfl
            exact count_insert_pair ps.peers peer PeerState.disconnected
              (.opening (.inbound .no)) (ps.num_in - 1) ps.num_out hlook (by omega) (by rw [← h2]; simp [charge, counts_out_no, charged_dir])
          · exact count_insert_pair ps.peers peer PeerState.disconnected
              (.opening (.outbound .yes)) ps.num_in ps.num_out hlook (by rw [← h1]; simp [charge, counts_in_no, charged_dir]) (by rw [← h2]; simp [charge, counts_out_no, charged_dir])
          · have hle := charge_lookupPeer_le counts_out_no ps.peers peer
            rw [hlook] at hle
            have e1 : charge counts_out_no (some (PeerState.opening (.outbound .no))) = 1 := rfl
            have e2 : charge counts_out_no (some PeerState.disconnected) = 0 := rfl
            exact count_insert_pair ps.peers peer PeerState.disconnected
              (.opening (.outbound .no)) ps.num_in (ps.num_out - 1) hlook (by rw [← h1]; simp [charge, counts_in_no, charged_dir]) (by omega)

theorem charged_dir_close_or_cancel (s : PeerState) :
    charged_dir (close_or_cancel s) = charged_dir s := by
  cases s <;> rfl

theorem count_by_map_close_or_cancel (f : PeerState → Bool)
    (hf : ∀ s, f (close_or_cancel s) = f s) (l : List (PeerId × PeerState)) :
    count_by f (l.map (fun e => (e.1, close_or_cancel e.2))) = count_by f l := by
  induction l with
  | nil => rfl
  | cons e rest ih => simp [count_by, hf, ih]

theorem cc_insert_uncharged (ps : Peerset) (peer : PeerId) (s : PeerState)
    (hcc : counters_consistent ps)
    (hin : charge counts_in_no (some s) = charge counts_in_no (lookupPeer ps.peers peer))
    (hout : charge counts_out_no (some s) = charge counts_out_no (lookupPeer ps.peers peer)) :
    ps.num_in = count_by counts_in_no (insertPeer ps.peers peer s) ∧
      ps.num_out = count_by counts_out_no (insertPeer ps.peers peer s) := by
  obtain ⟨h1, h2⟩ := hcc
  have hiIn := count_by_insertPeer counts_in_no ps.peers peer s
  have hiOut := count_by_insertPeer counts_out_no ps.peers peer s
  constructor <;> omega

theorem cc_add_reserved_peers_loop (l : List PeerId) (ps : Peerset)
    (hcc : counters_consistent ps) :
    counters_consistent (add_reserved_peers_loop ps l).1 := by
  induction l generalizing ps with
  | nil => exact hcc
  | cons p rest ih =>
      by_cases hmem : p ∈ ps.reserved_peers
      · simp only [add_reserved_peers_loop, if_pos hmem]
        exact ih ps hcc
      · simp only [add_reserved_peers_loop, if_neg hmem]
        cases hlook : lookupPeer ps.peers p with
        | none =>
            simp only [hlook]
            exact ih _ (cc_insert_uncharged ps p (.opening (.outbound .yes)) hcc
              (by rw [hlook]; rfl) (by rw [hlook]; rfl))
        | some st =>
            cases st with
            | disconnected =>
                simp only [hlook]
                exact ih _ (cc_insert_uncharged ps p (.opening (.outbound .yes)) hcc
                  (by rw [hlook]; rfl) (by rw [hlook]; rfl))
            | backoff => simp only [hlook]; exact ih _ hcc
            | opening d => simp only [hlook]; exact ih _ hcc
            | connected d => simp only [hlook]; exact ih _ hcc
            | canceled d => simp only [hlook]; exact ih _ hcc
            | closing d => simp only [hlook]; exact ih _ hcc

theorem cc_remove_reserved_peers_loop (l : List PeerId) (ps : Peerset)
    (hcc : counters_consistent ps) :
    counters_consistent (remove_reserved_peers_loop ps l).1 := by
  induction l generalizing ps with
  | nil => exact hcc
  | cons p rest ih =>
      by_cases hmem : p ∈ ps.reserved_peers
      · simp only [remove_reserved_peers_loop, if_pos hmem]
        cases hlook : lookupPeer ps.peers p with
        | none => simp only [hlook]; exact ih _ hcc
        | some st =>
            cases st with
            | connected d =>
                simp only [hlook]
                exact ih _ (cc_insert_uncharged ps p (.closing d) hcc
                  (by rw [hlook]
                      exact charge_congr_in (.closing d) (.connected d) rfl)
                  (by rw [hlook]
                      exact charge_congr_out (.closing d) (.connected d) rfl))
            | opening d =>
                simp only [hlook]
                exact ih _ (cc_insert_uncharged ps p (.canceled d) hcc
                  (by rw [hlook]
                      exact charge_congr_in (.canceled d) (.opening d) rfl)
                  (by rw [hlook]
                      exact charge_congr_out (.canceled d) (.opening d) rfl))
            | disconnected => simp only [hlook]; exact ih _ hcc
            | backoff => simp only [hlook]; exact ih _ hcc
            | canceled d => simp only [hlook]; exact ih _ hcc
            | closing d => simp only [hlook]; exact ih _ hcc
      · simp only [remove_reserved_peers_loop, if_neg hmem]
        exact ih ps hcc

theorem cc_process_command (ps : Peerset) (cmd : PeersetCommand)
    (hcc : counters_consistent ps) :
    counters_consistent (process_command ps cmd).1 := by
  cases cmd with
  | disconnectPeer peer =>
      cases hlook : lookupPeer ps.peers peer with
      | none => simp only [process_command, hlook]; exact hcc
      | some st =>
          cases st with
          | connected d =>
              simp only [process_command, hlook]
              exact cc_insert_uncharged ps peer (.closing d) hcc
                (by rw [hlook]
                    exact charge_congr_in (.closing d) (.connected d) rfl)
                (by rw [hlook]
                    exact charge_congr_out (.closing d) (.connected d) rfl)
          | opening d =>
              simp only [process_command, hlook]
              exact cc_insert_uncharged ps peer (.canceled d) hcc
                (by rw [hlook]
                    exact charge_congr_in (.canceled d) (.opening d) rfl)
                (by rw [hlook]
                    exact charge_congr_out (.canceled d) (.opening d) rfl)
          | disconnected => simp only [process_command, hlook]; exact hcc
          | backoff => simp only [process_command, hlook]; exact hcc
          | canceled d => simp only [process_command, hlook]; exact hcc
          | closing d => simp only [process_command, hlook]; exact hcc
  | setReservedPeers peers =>
      simp only [process_command]
      split
      · exact hcc
      · split <;> exact hcc
  | addReservedPeers peers =>
      simp only [process_command]
      exact cc_add_reserved_peers_loop peers ps hcc
  | removeReservedPeers peers =>
      simp only [process_command]
      exact cc_remove_reserved_peers_loop peers ps hcc
  | setReservedOnly b =>
      cases b with
      | false => exact hcc
      | true =>
          obtain ⟨h1, h2⟩ := hcc
          simp only [process_command, if_pos]
          constructor
          · rw [count_by_map_close_or_cancel counts_in_no (fun s => by
              simp [counts_in_no, charged_dir_close_or_cancel])]
            exact h1
          · rw [count_by_map_close_or_cancel counts_out_no (fun s => by
              simp [counts_out_no, charged_dir_close_or_cancel])]
            exact h2
  | getReservedPeers => exact hcc

theorem connect_to_lookup (ps : Peerset) (banned : PeerId → Bool)
    (hkeys : (ps.peers.map Prod.fst).Nodup) (p : PeerId)
    (hp : p ∈ (ps.peers.filter (fun e =>
      ps.reserved_peers.contains e.1 && decide (e.2 = PeerState.disconnected) &&
        ! banned e.1)).map Prod.fst) :
    lookupPeer ps.peers p = some PeerState.disconnected := by
  rcases List.mem_map.mp hp with ⟨e, he, rfl⟩
  have hef := List.mem_filter.mp he
  have he2 : e.2 = PeerState.disconnected := by
    have hcond := hef.2
    simp only [Bool.and_eq_true, decide_eq_true_eq] at hcond
    exact hcond.1.2
  have hl := lookupPeer_of_mem ps.peers e.1 e.2 hkeys (by
    have : (e.1, e.2) = e := rfl
    rw [this]
    exact hef.1)
  rw [he2] at hl
  exact hl

theorem connect_to_nodup (ps : Peerset) (banned : PeerId → Bool)
    (hkeys : (ps.peers.map Prod.fst).Nodup) :
    ((ps.peers.filter (fun e =>
      ps.reserved_peers.contains e.1 && decide (e.2 = PeerState.disconnected) &&
        ! banned e.1)).map Prod.fst).Nodup := by
  have hsub : (ps.peers.filter (fun e =>
      ps.reserved_peers.contains e.1 && decide (e.2 = PeerState.disconnected) &&
        ! banned e.1)).Sublist ps.peers := List.filter_sublist ps.peers
  exact List.Nodup.sublist (hsub.map Prod.fst) hkeys

theorem cc_slot_allocate (ps : Peerset) (banned : PeerId → Bool) (candidates : List PeerId)
    (hcc : counters_consistent ps)
    (hkeys : (ps.peers.map Prod.fst).Nodup)
    (hnd : candidates.Nodup)
    (hcand : ∀ c ∈ candidates, lookupPeer ps.peers c = none ∨
      lookupPeer ps.peers c = some PeerState.disconnected) :
    counters_consistent (slot_allocate ps banned candidates).1 := by
  obtain ⟨h1, h2⟩ := hcc
  have hct := connect_to_lookup ps banned hkeys
  have hctnd := connect_to_nodup ps banned hkeys
  have hfIn := count_by_foldl_insertPeer counts_in_no
    ((ps.peers.filter (fun e =>
      ps.reserved_peers.contains e.1 && decide (e.2 = PeerState.disconnected) &&
        ! banned e.1)).map Prod.fst) ps.peers (.opening (.outbound .yes))
    (fun p hp => by rw [hct p hp]; rfl) hctnd
  have hfOut := count_by_foldl_insertPeer counts_out_no
    ((ps.peers.filter (fun e =>
      ps.reserved_peers.contains e.1 && decide (e.2 = PeerState.disconnected) &&
        ! banned e.1)).map Prod.fst) ps.peers (.opening (.outbound .yes))
    (fun p hp => by rw [hct p hp]; rfl) hctnd
  have eY_in : charge counts_in_no (some (PeerState.opening (.outbound .yes))) = 0 := rfl
  have eY_out : charge counts_out_no (some (PeerState.opening (.outbound .yes))) = 0 := rfl
  have eN_in : charge counts_in_no (some (PeerState.opening (.outbound .no))) = 0 := rfl
  have eN_out : charge counts_out_no (some (PeerState.opening (.outbound .no))) = 1 := rfl
  rw [eY_in] at hfIn
  rw [eY_out] at hfOut
  simp only [Nat.mul_zero, Nat.add_zero] at hfIn hfOut
  have hcand1 : ∀ c ∈ candidates, ∀ g : PeerState → Bool,
      charge g (lookupPeer (((ps.peers.filter (fun e =>
        ps.reserved_peers.contains e.1 && decide (e.2 = PeerState.disconnected) &&
          ! banned e.1)).map Prod.fst).foldl
        (fun acc p => insertPeer acc p (.opening (.outbound .yes))) ps.peers) c)
      = charge g (some (PeerState.opening (.outbound .yes))) ∨
      charge g (lookupPeer (((ps.peers.filter (fun e =>
        ps.reserved_peers.contains e.1 && decide (e.2 = PeerState.disconnected) &&
          ! banned e.1)).map Prod.fst).foldl
        (fun acc p => insertPeer acc p (.opening (.outbound .yes))) ps.peers) c)
      = charge g (none : Option PeerState) ∨
      charge g (lookupPeer (((ps.peers.filter (fun e =>
        ps.reserved_peers.contains e.1 && decide (e.2 = PeerState.disconnected) &&
          ! banned e.1)).map Prod.fst).foldl
        (fun acc p => insertPeer acc p (.opening (.outbound .yes))) ps.peers) c)
      = charge g (some PeerState.disconnected) := by
    intro c hc g
    rw [lookupPeer_foldl_insertPeer]
    by_cases hmem : c ∈ (ps.peers.filter (fun e =>
        ps.reserved_peers.contains e.1 && decide (e.2 = PeerState.disconnected) &&
          ! banned e.1)).map Prod.fst
    · rw [if_pos hmem]
      exact Or.inl rfl
    · rw [if_neg hmem]
      rcases hcand c hc with hcase | hcase
      · rw [hcase]
        exact Or.inr (Or.inl rfl)
      · rw [hcase]
        exact Or.inr (Or.inr rfl)
  have hcandIn : ∀ c ∈ candidates,
      charge counts_in_no (lookupPeer (((ps.peers.filter (fun e =>
        ps.reserved_peers.contains e.1 && decide (e.2 = PeerState.disconnected) &&
          ! banned e.1)).map Prod.fst).foldl
        (fun acc p => insertPeer acc p (.opening (.outbound .yes))) ps.peers) c) = 0 := by
    intro c hc
    rcases hcand1 c hc counts_in_no with hcs | hcs | hcs <;> rw [hcs] <;> rfl
  have hcandOut : ∀ c ∈ candidates,
      charge counts_out_no (lookupPeer (((ps.peers.filter (fun e =>
        ps.reserved_peers.contains e.1 && decide (e.2 = PeerState.disconnected) &&
          ! banned e.1)).map Prod.fst).foldl
        (fun acc p => insertPeer acc p (.opening (.outbound .yes))) ps.peers) c) = 0 := by
    intro c hc
    rcases hcand1 c hc counts_out_no with hcs | hcs | hcs <;> rw [hcs] <;> rfl
  have hgIn := count_by_foldl_insertPeer counts_in_no candidates _
    (.opening (.outbound .no)) hcandIn hnd
  have hgOut := count_by_foldl_insertPeer counts_out_no candidates _
    (.opening (.outbound .no)) hcandOut hnd
  rw [eN_in] at hgIn
  rw [eN_out] at hgOut
  simp only [Nat.mul_zero, Nat.add_zero, Nat.mul_one] at hgIn hgOut
  simp only [slot_allocate]
  split
  · split
    · split <;> (refine ⟨?_, ?_⟩ <;> dsimp only <;> omega)
    · split <;> (refine ⟨?_, ?_⟩ <;> dsimp only <;> omega)
  · split <;> (refine ⟨?_, ?_⟩ <;> dsimp only <;> omega)

/-- C1: starting from a state satisfying the counter-consistency invariant
(`num_in` = number of peers in Opening/Connected/Canceled/Closing with
direction `Inbound(No)`, symmetrically for `num_out`), the invariant holds
again after every ingress event (`report_substream_opened`,
`report_substream_closed`, `report_inbound_substream`,
`report_substream_open_failure`, `report_substream_rejected`), after every
processed command and after every allocator tick. `report_substream_closed`
carries the transport-validity hypothesis that the peer is not in a pending
Opening/Canceled state, the diagnostic-anomaly arm of spec section 7 (the
code then logs, fires `debug_assert!` and skips the slot release, which is the
one path that can de-synchronise the counters); the panicking arms of the
other events are `none` results and are covered vacuously. The allocator tick
carries the peerstore contract: the candidates returned by
`next_outbound_peers` avoid the ignore set (they are unknown or
`Disconnected`) and contain no duplicates. -/
theorem c1_counter_state_consistency (ps : Peerset)
    (hcc : counters_consistent ps) :
    (∀ peer dir ps1 keep, report_substream_opened ps peer dir = some (ps1, keep) →
        counters_consistent ps1) ∧
    (∀ peer, pending_open_state (lookupPeer ps.peers peer) = false →
        counters_consistent (report_substream_closed ps peer)) ∧
    (∀ peer ps1 v, report_inbound_substream ps peer = some (ps1, v) →
        counters_consistent ps1) ∧
    (∀ peer ps1, report_substream_open_failure ps peer = some ps1 →
        counters_consistent ps1) ∧
    (∀ peer, counters_consistent (report_substream_rejected ps peer)) ∧
    (∀ cmd, counters_consistent (process_command ps cmd).1) ∧
    (∀ banned candidates, (ps.peers.map Prod.fst).Nodup → candidates.Nodup →
        (∀ c ∈ candidates, lookupPeer ps.peers c = none ∨
          lookupPeer ps.peers c = some PeerState.disconnected) →
        counters_consistent (slot_allocate ps banned candidates).1) :=
  ⟨fun peer dir ps1 keep h => cc_report_substream_opened ps peer dir ps1 keep hcc h,
   fun peer hvalid => cc_report_substream_closed ps peer hcc hvalid,
   fun peer ps1 v h => cc_report_inbound_substream ps peer ps1 v hcc h,
   fun peer ps1 h => cc_report_substream_open_failure ps peer ps1 hcc h,
   fun peer => cc_report_substream_rejected ps peer hcc,
   fun cmd => cc_process_command ps cmd hcc,
   fun banned candidates hkeys hnd hcand =>
     cc_slot_allocate ps banned candidates hcc hkeys hnd hcand⟩

/-- C1 (witness): the theorem applied at the concrete consistent state `psC1`,
instantiating the closed-event conjunct at peer 1 (a connected peer) and the
allocator conjunct with candidate list `[7]`. -/
theorem c1_counter_state_consistency_witness :
    counters_consistent psC1 ∧
    counters_consistent (report_substream_closed psC1 1) ∧
    counters_consistent (slot_allocate psC1 (fun _ => false) [7]).1 :=
  ⟨by decide,
   (c1_counter_state_consistency psC1 (by decide)).2.1 1 (by decide),
   (c1_counter_state_consistency psC1 (by decide)).2.2.2.2.2.2 (fun _ => false) [7]
     (by decide) (by decide) (by decide)⟩

theorem wb_report_substream_opened (ps : Peerset) (peer : PeerId)
    (dir : TransportDirection) (ps1 : Peerset) (keep : Bool)
    (hwb : within_bounds ps)
    (h : report_substream_opened ps peer dir = some (ps1, keep)) :
    within_bounds ps1 := by
  cases hlook : lookupPeer ps.peers peer with
  | none =>
      simp only [report_substream_opened, hlook, Option.some.injEq, Prod.mk.injEq] at h
      obtain ⟨rfl, rfl⟩ := h
      exact hwb
  | some st =>
      cases st <;>
        simp only [report_substream_opened, hlook, Option.some.injEq, Prod.mk.injEq] at h
      all_goals obtain ⟨rfl, rfl⟩ := h
      all_goals exact hwb

theorem wb_report_substream_closed (ps : Peerset) (peer : PeerId)
    (hwb : within_bounds ps) :
    within_bounds (report_substream_closed ps peer) := by
  obtain ⟨w1, w2⟩ := hwb
  cases hlook : lookupPeer ps.peers peer with
  | none => simp only [report_substream_closed, hlook]; exact ⟨w1, w2⟩
  | some st =>
      rcases st with _ | _ | d | d | d | d <;>
        (try (rcases d with r | r <;> rcases r)) <;>
        simp only [report_substream_closed, hlook] <;>
        (refine ⟨?_, ?_⟩ <;> dsimp only <;> omega)

theorem wb_inbound_slot_allocation (ps : Peerset) (peer : PeerId) (r : Bool)
    (hwb : within_bounds ps) :
    within_bounds (inbound_slot_allocation ps peer r).1 := by
  obtain ⟨w1, w2⟩ := hwb
  cases r with
  | true => exact ⟨w1, w2⟩
  | false =>
      by_cases hfree : ps.num_in < ps.max_in
      · simp only [inbound_slot_allocation, Bool.false_eq_true, if_false, if_pos hfree]
        exact ⟨by dsimp only; omega, w2⟩
      · simp only [inbound_slot_allocation, Bool.false_eq_true, if_false, if_neg hfree]
        exact ⟨w1, w2⟩

theorem wb_inbound_slot_allocation_inv (ps : Peerset) (peer : PeerId) (r : Bool)
    (ps1 : Peerset) (v : ValidationResult)
    (h : inbound_slot_allocation ps peer r = (ps1, v))
    (hwb : within_bounds ps) :
    within_bounds ps1 := by
  have hwbA := wb_inbound_slot_allocation ps peer r hwb
  rw [h] at hwbA
  exact hwbA

theorem wb_report_inbound_substream (ps : Peerset) (peer : PeerId)
    (ps1 : Peerset) (v : ValidationResult)
    (hwb : within_bounds ps)
    (h : report_inbound_substream ps peer = some (ps1, v)) :
    within_bounds ps1 := by
  obtain ⟨w1, w2⟩ := hwb
  cases hlook : lookupPeer ps.peers peer with
  | none =>
      simp only [report_inbound_substream, hlook, Option.some.injEq] at h
      exact wb_inbound_slot_allocation_inv _ peer _ ps1 v h ⟨w1, w2⟩
  | some st =>
      cases st with
      | disconnected =>
          simp only [report_inbound_substream, hlook, Option.some.injEq] at h
          exact wb_inbound_slot_allocation_inv _ peer _ ps1 v h ⟨w1, w2⟩
      | backoff =>
          simp only [report_inbound_substream, hlook, Option.some.injEq, Prod.mk.injEq] at h
          obtain ⟨rfl, rfl⟩ := h
          exact ⟨w1, w2⟩
      | connected d =>
          simp only [report_inbound_substream, hlook, Option.some.injEq, Prod.mk.injEq] at h
          obtain ⟨rfl, rfl⟩ := h
          exact ⟨w1, w2⟩
      | closing d =>
          simp only [report_inbound_substream, hlook, Option.some.injEq, Prod.mk.injEq] at h
          obtain ⟨rfl, rfl⟩ := h
          exact ⟨w1, w2⟩
      | opening d =>
          rcases d with r | rsv
          · simp only [report_inbound_substream, hlook, Option.some.injEq, Prod.mk.injEq] at h
            obtain ⟨rfl, rfl⟩ := h
            exact ⟨w1, w2⟩
          · by_cases hr : peer ∈ ps.reserved_peers
            · cases rsv with
              | yes =>
                  simp only [report_inbound_substream, hlook, hr, List.elem_eq_mem,
                    decide_True, Option.some.injEq] at h
                  exact wb_inbound_slot_allocation_inv _ peer _ ps1 v h ⟨w1, w2⟩
              | no => simp [report_inbound_substream, hlook, hr, List.elem_eq_mem] at h
            · cases rsv with
              | yes => simp [report_inbound_substream, hlook, hr, List.elem_eq_mem] at h
              | no =>
                  by_cases hfull : ps.max_in ≤ ps.num_in
                  · simp only [report_inbound_substream, hlook, hr, List.elem_eq_mem,
                      decide_False, if_pos hfull, Option.some.injEq, Prod.mk.injEq] at h
                    obtain ⟨rfl, rfl⟩ := h
                    exact ⟨w1, by dsimp only; omega⟩
                  · simp only [report_inbound_substream, hlook, hr, List.elem_eq_mem,
                      decide_False, if_neg hfull, Option.some.injEq] at h
                    exact wb_inbound_slot_allocation_inv _ peer _ ps1 v h
                      ⟨w1, by dsimp only; omega⟩
      | canceled d =>
          rcases d with r | rsv
          · simp [report_inbound_substream, hlook] at h
          · cases rsv with
            | yes =>
                simp only [report_inbound_substream, hlook, Option.some.injEq,
                  Prod.mk.injEq] at h
                obtain ⟨rfl, rfl⟩ := h
                exact ⟨w1, w2⟩
            | no =>
                simp only [report_inbound_substream, hlook, Option.some.injEq,
                  Prod.mk.injEq] at h
                obtain ⟨rfl, rfl⟩ := h
                exact ⟨w1, by dsimp only; omega⟩

theorem wb_report_substream_open_failure (ps : Peerset) (peer : PeerId) (ps1 : Peerset)
    (hwb : within_bounds ps)
    (h : report_substream_open_failure ps peer = some ps1) :
    within_bounds ps1 := by
  obtain ⟨w1, w2⟩ := hwb
  cases hlook : lookupPeer ps.peers peer with
  | none => simp [report_substream_open_failure, hlook] at h
  | some st =>
      cases st with
      | disconnected => simp [report_substream_open_failure, hlook] at h
      | backoff => simp [report_substream_open_failure, hlook] at h
      | connected d => simp [report_substream_open_failure, hlook] at h
      | closing d => simp [report_substream_open_failure, hlook] at h
      | opening d =>
          rcases d with r | r <;> rcases r <;>
            simp only [report_substream_open_failure, hlook, Option.some.injEq] at h <;>
            subst h <;>
            (refine ⟨?_, ?_⟩ <;> dsimp only <;> omega)
      | canceled d =>
          rcases d with r | r <;> rcases r <;>
            simp only [report_substream_open_failure, hlook, Option.some.injEq] at h <;>
            subst h <;>
            (refine ⟨?_, ?_⟩ <;> dsimp only <;> omega)

theorem wb_report_substream_rejected (ps : Peerset) (peer : PeerId)
    (hwb : within_bounds ps) :
    within_bounds (report_substream_rejected ps peer) := by
  obtain ⟨w1, w2⟩ := hwb
  cases hlook : lookupPeer ps.peers peer with
  | none => simp only [report_substream_rejected, hlook]; exact ⟨w1, w2⟩
  | some st =>
      rcases st with _ | _ | d | d | d | d <;>
        (try (rcases d with r | r <;> rcases r)) <;>
        simp only [report_substream_rejected, hlook] <;>
        (refine ⟨?_, ?_⟩ <;> dsimp only <;> omega)

theorem add_reserved_peers_loop_counters (l : List PeerId) (ps : Peerset) :
    (add_reserved_peers_loop ps l).1.num_in = ps.num_in ∧
    (add_reserved_peers_loop ps l).1.num_out = ps.num_out ∧
    (add_reserved_peers_loop ps l).1.max_in = ps.max_in ∧
    (add_reserved_peers_loop ps l).1.max_out = ps.max_out := by
  induction l generalizing ps with
  | nil => exact ⟨rfl, rfl, rfl, rfl⟩
  | cons p rest ih =>
      by_cases hmem : p ∈ ps.reserved_peers
      · simp only [add_reserved_peers_loop, if_pos hmem]
        exact ih ps
      · simp only [add_reserved_peers_loop, if_neg hmem]
        cases hlook : lookupPeer ps.peers p with
        | none => simp only [hlook]; exact ih _
        | some st => cases st <;> simp only [hlook] <;> exact ih _

theorem remove_reserved_peers_loop_counters (l : List PeerId) (ps : Peerset) :
    (remove_reserved_peers_loop ps l).1.num_in = ps.num_in ∧
    (remove_reserved_peers_loop ps l).1.num_out = ps.num_out ∧
    (remove_reserved_peers_loop ps l).1.max_in = ps.max_in ∧
    (remove_reserved_peers_loop ps l).1.max_out = ps.max_out := by
  induction l generalizing ps with
  | nil => exact ⟨rfl, rfl, rfl, rfl⟩
  | cons p rest ih =>
      by_cases hmem : p ∈ ps.reserved_peers
      · simp only [remove_reserved_peers_loop, if_pos hmem]
        cases hlook : lookupPeer ps.peers p with
        | none => simp only [hlook]; exact ih _
        | some st => cases st <;> simp only [hlook] <;> exact ih _
      · simp only [remove_reserved_peers_loop, if_neg hmem]
        exact ih ps

theorem wb_process_command (ps : Peerset) (cmd : PeersetCommand)
    (hwb : within_bounds ps) :
    within_bounds (process_command ps cmd).1 := by
  obtain ⟨w1, w2⟩ := hwb
  cases cmd with
  | disconnectPeer peer =>
      cases hlook : lookupPeer ps.peers peer with
      | none => simp only [process_command, hlook]; exact ⟨w1, w2⟩
      | some st => cases st <;> simp only [process_command, hlook] <;> exact ⟨w1, w2⟩
  | setReservedPeers peers =>
      simp only [process_command]
      split
      · exact ⟨w1, w2⟩
      · split <;> exact ⟨w1, w2⟩
  | addReservedPeers peers =>
      have hnums := add_reserved_peers_loop_counters peers ps
      simp only [process_command]
      refine ⟨?_, ?_⟩ <;> dsimp only <;> omega
  | removeReservedPeers peers =>
      have hnums := remove_reserved_peers_loop_counters peers ps
      simp only [process_command]
      refine ⟨?_, ?_⟩ <;> dsimp only <;> omega
  | setReservedOnly b =>
      cases b with
      | false => exact ⟨w1, w2⟩
      | true => exact ⟨w1, w2⟩
  | getReservedPeers => exact ⟨w1, w2⟩

theorem wb_slot_allocate (ps : Peerset) (banned : PeerId → Bool)
    (candidates : List PeerId)
    (hwb : within_bounds ps)
    (hlen : candidates.length ≤ ps.max_out - ps.num_out) :
    within_bounds (slot_allocate ps banned candidates).1 := by
  obtain ⟨w1, w2⟩ := hwb
  simp only [slot_allocate]
  split
  · split
    · split <;> (refine ⟨?_, ?_⟩ <;> dsimp only <;> omega)
    · split <;> (refine ⟨?_, ?_⟩ <;> dsimp only <;> omega)
  · split <;> (refine ⟨?_, ?_⟩ <;> dsimp only <;> omega)

theorem slot_allocate_no_free_slots (ps : Peerset) (banned : PeerId → Bool)
    (candidates : List PeerId) (hfull : ps.max_out ≤ ps.num_out) :
    (slot_allocate ps banned candidates).1.num_out = ps.num_out := by
  have hneg : ¬ (ps.num_out < ps.max_out ∧ ps.reserved_only = false) :=
    fun hc => absurd hc.1 (by omega)
  simp only [slot_allocate, hneg, if_false]
  split <;> rfl

/-- C2: starting from a state satisfying the slot bounds `num_in ≤ max_in` and
`num_out ≤ max_out`, the bounds hold again after every ingress event, every
processed command and every allocator tick: `report_inbound_substream` only
increments `num_in` behind the `num_in < max_in` guard (peerset.rs line 605),
no command touches the counters, and the allocator only consumes candidates
when `num_out < max_out` and, by the `next_outbound_peers` contract, receives
at most `max_out - num_out` of them (peerset.rs line 1141); the last conjunct
shows that with no free outbound slot the tick does not change `num_out` at
all. -/
theorem c2_slot_bounds (ps : Peerset) (hwb : within_bounds ps) :
    (∀ peer dir ps1 keep, report_substream_opened ps peer dir = some (ps1, keep) →
        within_bounds ps1) ∧
    (∀ peer, within_bounds (report_substream_closed ps peer)) ∧
    (∀ peer ps1 v, report_inbound_substream ps peer = some (ps1, v) →
        within_bounds ps1) ∧
    (∀ peer ps1, report_substream_open_failure ps peer = some ps1 →
        within_bounds ps1) ∧
    (∀ peer, within_bounds (report_substream_rejected ps peer)) ∧
    (∀ cmd, within_bounds (process_command ps cmd).1) ∧
    (∀ banned candidates, candidates.length ≤ ps.max_out - ps.num_out →
        within_bounds (slot_allocate ps banned candidates).1) ∧
    (∀ banned candidates, ps.max_out ≤ ps.num_out →
        (slot_allocate ps banned candidates).1.num_out = ps.num_out) :=
  ⟨fun peer dir ps1 keep h => wb_report_substream_opened ps peer dir ps1 keep hwb h,
   fun peer => wb_report_substream_closed ps peer hwb,
   fun peer ps1 v h => wb_report_inbound_substream ps peer ps1 v hwb h,
   fun peer ps1 h => wb_report_substream_open_failure ps peer ps1 hwb h,
   fun peer => wb_report_substream_rejected ps peer hwb,
   fun cmd => wb_process_command ps cmd hwb,
   fun banned candidates hlen => wb_slot_allocate ps banned candidates hwb hlen,
   fun banned candidates hfull => slot_allocate_no_free_slots ps banned candidates hfull⟩

/-- C2 (witness): the theorem applied at `psC2`, instantiating the
inbound-event conjunct at the fresh peer 9 and the allocator conjunct with
candidate list `[7]` (one candidate, 24 free outbound slots). -/
theorem c2_slot_bounds_witness :
    within_bounds psC2 ∧
    within_bounds (report_substream_closed psC2 1) ∧
    within_bounds (slot_allocate psC2 (fun _ => false) [7]).1 :=
  ⟨by decide,
   (c2_slot_bounds psC2 (by decide)).2.1 1,
   (c2_slot_bounds psC2 (by decide)).2.2.2.2.2.2.1 (fun _ => false) [7] (by decide)⟩
